import Mathlib

/-!
# Verification of the sales-analytics data cleaning and metrics pipeline

Shallow embedding of `src/analyzer.py` (class `SalesAnalyzer`): the cleaning
pipeline `clean_data`, the metrics `calculate_metrics` /
`_calculate_repeat_rate`, the groupings `get_top_categories` /
`get_top_customers` / `analyze_seasonal_trends`, and the report
`answer_business_questions`.

Modelling conventions:
* A DataFrame is a `List Record`, one `Record` per row, in row order.
* A cell that pandas would hold as `NaN` / `NaT` / `None` is an `Option`
  that is `none`.  The raw textual cells of `order_date`, `order_amount`
  and `unit_price` are represented by the **result** of their coercion
  (`pd.to_datetime` / `pd.to_numeric` with `errors='coerce'`): `some v`
  for a parseable cell, `none` for an unparseable one; the coercion step
  of `clean_data` is therefore the identity on this representation.
* Dates are kept at month granularity (`order_date : Option Nat`, the
  value being a year-month key), which is the only resolution the
  pipeline ever inspects (`dt.to_period('M')`).
* Numeric cells are `Rat` (pandas float64 without rounding; every claim
  under test is exercised on small exact values).
* Python `/` raising `ZeroDivisionError` is modelled by `pydiv`
  returning `none`, and a method call that raises is modelled as an
  `Option` result that is `none`.
-/

/-- One row of the sales table (columns of `data/sales_data.csv` as listed
in the spec: order_id, customer_id, order_date, product_category,
product_name, quantity, unit_price, order_amount, status). -/
structure Record where
  order_id : String
  customer_id : String
  order_date : Option Nat
  product_category : String
  product_name : String
  quantity : Int
  unit_price : Option Rat
  order_amount : Option Rat
  status : Option String
deriving DecidableEq, Repr

namespace SalesAnalyzer

/-! ## Generic helpers: keep-first deduplication -/

/-- Worker for keep-first deduplication: `seen` is the set of keys of rows
already emitted. -/
def dedupByKeyAux {α : Type} {κ : Type} [DecidableEq κ] (key : α → κ)
    (seen : List κ) : List α → List α
  | [] => []
  | x :: xs =>
    if key x ∈ seen then dedupByKeyAux key seen xs
    else x :: dedupByKeyAux key (key x :: seen) xs

/-- Keep the first occurrence of each key, in original order
(pandas `drop_duplicates(keep='first')` and the distinct-value order of
`Series.unique`). -/
def dedupByKey {α : Type} {κ : Type} [DecidableEq κ] (key : α → κ) (l : List α) : List α :=
  dedupByKeyAux key [] l

theorem dedupByKeyAux_sublist {α κ : Type} [DecidableEq κ] (key : α → κ) :
    ∀ (seen : List κ) (l : List α), (dedupByKeyAux key seen l).Sublist l
  | _, [] => List.Sublist.refl _
  | seen, x :: xs => by
    unfold dedupByKeyAux
    split
    · exact (dedupByKeyAux_sublist key seen xs).trans (List.sublist_cons_self x xs)
    · exact (dedupByKeyAux_sublist key _ xs).cons₂ x

theorem mem_of_mem_dedupByKey {α κ : Type} [DecidableEq κ] {key : α → κ} {l : List α}
    {a : α} (h : a ∈ dedupByKey key l) : a ∈ l :=
  (dedupByKeyAux_sublist key [] l).mem h

theorem dedupByKeyAux_key_not_seen {α κ : Type} [DecidableEq κ] (key : α → κ) :
    ∀ (seen : List κ) (l : List α) (a : α), a ∈ dedupByKeyAux key seen l → key a ∉ seen
  | seen, x :: xs, a, h => by
    unfold dedupByKeyAux at h
    split at h
    · exact dedupByKeyAux_key_not_seen key seen xs a h
    · rcases List.mem_cons.mp h with rfl | h
      · assumption
      · have := dedupByKeyAux_key_not_seen key _ xs a h
        exact fun hc => this (List.mem_cons_of_mem _ hc)

theorem pairwise_dedupByKeyAux {α κ : Type} [DecidableEq κ] (key : α → κ) :
    ∀ (seen : List κ) (l : List α),
      (dedupByKeyAux key seen l).Pairwise (fun a b => key a ≠ key b)
  | _, [] => List.Pairwise.nil
  | seen, x :: xs => by
    unfold dedupByKeyAux
    split
    · exact pairwise_dedupByKeyAux key seen xs
    · refine List.pairwise_cons.mpr ⟨?_, pairwise_dedupByKeyAux key _ xs⟩
      intro b hb
      have := dedupByKeyAux_key_not_seen key _ xs b hb
      exact fun hc => this (hc ▸ List.mem_cons_self _ _)

theorem pairwise_dedupByKey {α κ : Type} [DecidableEq κ] (key : α → κ) (l : List α) :
    (dedupByKey key l).Pairwise (fun a b => key a ≠ key b) :=
  pairwise_dedupByKeyAux key [] l

theorem dedupByKeyAux_eq_self {α κ : Type} [DecidableEq κ] (key : α → κ) :
    ∀ (seen : List κ) (l : List α), l.Pairwise (fun a b => key a ≠ key b) →
      (∀ a ∈ l, key a ∉ seen) → dedupByKeyAux key seen l = l
  | _, [], _, _ => rfl
  | seen, x :: xs, h, hseen => by
    rcases List.pairwise_cons.mp h with ⟨hx, hxs⟩
    unfold dedupByKeyAux
    rw [if_neg (hseen x (List.mem_cons_self _ _))]
    congr 1
    refine dedupByKeyAux_eq_self key _ xs hxs ?_
    intro a ha
    intro hc
    rcases List.mem_cons.mp hc with hc | hc
    · exact hx a ha hc.symm
    · exact hseen a (List.mem_cons_of_mem _ ha) hc

theorem dedupByKey_eq_self {α κ : Type} [DecidableEq κ] (key : α → κ) (l : List α)
    (h : l.Pairwise (fun a b => key a ≠ key b)) : dedupByKey key l = l :=
  dedupByKeyAux_eq_self key [] l h (fun a _ => List.not_mem_nil (key a))

theorem dedupByKey_idem {α κ : Type} [DecidableEq κ] (key : α → κ) (l : List α) :
    dedupByKey key (dedupByKey key l) = dedupByKey key l :=
  dedupByKey_eq_self key _ (pairwise_dedupByKey key l)

/-- Keys (or any values) deduplicated keeping the first occurrence. -/
def dedupKeepFirst {α : Type} [DecidableEq α] (l : List α) : List α :=
  dedupByKey id l

theorem mem_dedupByKeyAux_id {α : Type} [DecidableEq α] :
    ∀ (seen : List α) (l : List α) (a : α), a ∈ l → a ∉ seen →
      a ∈ dedupByKeyAux id seen l
  | seen, x :: xs, a, h, hseen => by
    unfold dedupByKeyAux
    simp only [id_eq]
    rcases List.mem_cons.mp h with rfl | h
    · rw [if_neg hseen]
      exact List.mem_cons_self _ _
    · split
      · exact mem_dedupByKeyAux_id seen xs a h hseen
      · by_cases hax : a = x
        · exact hax ▸ List.mem_cons_self _ _
        · refine List.mem_cons_of_mem _ (mem_dedupByKeyAux_id _ xs a h ?_)
          intro hc
          rcases List.mem_cons.mp hc with hc | hc
          · exact hax hc
          · exact hseen hc

theorem mem_dedupKeepFirst {α : Type} [DecidableEq α] {l : List α} {a : α} :
    a ∈ dedupKeepFirst l ↔ a ∈ l :=
  ⟨fun h => mem_of_mem_dedupByKey h,
   fun h => mem_dedupByKeyAux_id [] l a h (List.not_mem_nil a)⟩

/-! ## The Cleaner: `SalesAnalyzer.clean_data` -/

/-- Step 1 of `clean_data`:
`df['status'] = df['status'].fillna('pending')`. -/
def fillStatusPending (df : List Record) : List Record :=
  df.map fun r => { r with status := some (r.status.getD "pending") }

/-- Step 2 of `clean_data`:
`pd.to_datetime(..., errors='coerce')` / `pd.to_numeric(..., errors='coerce')`
on order_date, order_amount, unit_price.  In this embedding the raw cells
already carry their coercion results (`some v` parseable / `none` not), so
the step is the identity on the table. -/
def coerceTypes (df : List Record) : List Record := df

/-- `df['order_amount'] > 0`: a `NaN` (here `none`) amount compares false
and the row is dropped. -/
def amountPositive (r : Record) : Bool :=
  match r.order_amount with
  | some a => decide (0 < a)
  | none => false

/-- Step 3 of `clean_data`:
`df = df[df['order_amount'] > 0]` then `df = df[df['quantity'] > 0]`. -/
def removeInvalid (df : List Record) : List Record :=
  (df.filter amountPositive).filter fun r => decide (0 < r.quantity)

/-- Step 4 of `clean_data`:
`df.drop_duplicates(subset=['order_id'], keep='first')`. -/
def dropDuplicatesByOrderId (df : List Record) : List Record :=
  dedupByKey Record.order_id df

/-- `SalesAnalyzer.clean_data` (src/analyzer.py lines 42-82): fill null
status, coerce types, remove non-positive amounts/quantities, drop
duplicate order_ids keeping the first — in that order. -/
def clean_data (df : List Record) : List Record :=
  dropDuplicatesByOrderId (removeInvalid (coerceTypes (fillStatusPending df)))

theorem mem_clean_data {df : List Record} {r : Record} (h : r ∈ clean_data df) :
    r ∈ fillStatusPending df ∧ amountPositive r = true ∧ decide (0 < r.quantity) = true := by
  have h1 : r ∈ removeInvalid (coerceTypes (fillStatusPending df)) :=
    mem_of_mem_dedupByKey h
  have h2 := List.mem_filter.mp h1
  have h3 := List.mem_filter.mp h2.1
  exact ⟨h3.1, h3.2, h2.2⟩

theorem status_isSome_of_mem_fill {df : List Record} {r : Record}
    (h : r ∈ fillStatusPending df) : r.status.isSome = true := by
  rcases List.mem_map.mp h with ⟨s, _, rfl⟩
  rfl

theorem fillStatusPending_eq_self {l : List Record}
    (h : ∀ r ∈ l, r.status.isSome = true) : fillStatusPending l = l := by
  unfold fillStatusPending
  induction l with
  | nil => rfl
  | cons x xs ih =>
    simp only [List.map_cons]
    have hx := h x (List.mem_cons_self _ _)
    congr 1
    · cases hxs : x.status with
      | none => rw [hxs] at hx; simp at hx
      | some s => cases x; simp_all
    · exact ih fun r hr => h r (List.mem_cons_of_mem _ hr)

theorem removeInvalid_eq_self {l : List Record}
    (hamt : ∀ r ∈ l, amountPositive r = true)
    (hqty : ∀ r ∈ l, decide (0 < r.quantity) = true) : removeInvalid l = l := by
  unfold removeInvalid
  rw [List.filter_eq_self.mpr hamt, List.filter_eq_self.mpr hqty]

/-- C1: the output of `clean_data` has pairwise-distinct order_ids, every
record has a (coercible) order_amount strictly greater than 0 and a
quantity strictly greater than 0, and no record has a null status. -/
theorem clean_data_invariants (df : List Record) :
    (clean_data df).Pairwise (fun a b => a.order_id ≠ b.order_id) ∧
    (∀ r ∈ clean_data df,
      (∃ a, r.order_amount = some a ∧ 0 < a) ∧ 0 < r.quantity ∧ r.status ≠ none) := by
  refine ⟨pairwise_dedupByKey Record.order_id _, ?_⟩
  intro r hr
  obtain ⟨hmem, hamt, hqty⟩ := mem_clean_data hr
  refine ⟨?_, of_decide_eq_true hqty, ?_⟩
  · cases ha : r.order_amount with
    | none => simp [amountPositive, ha] at hamt
    | some a => exact ⟨a, rfl, by simpa [amountPositive, ha] using hamt⟩
  · have hs := status_isSome_of_mem_fill hmem
    cases h : r.status with
    | none => rw [h] at hs; simp at hs
    | some s => simp

/-- A row whose order_id duplicates a later row's and whose order_amount is
non-positive (so that the order of the positivity filter and the
deduplication is observable). -/
def rowNegDup : Record :=
  ⟨"ORD1", "CUST1", some 202401, "Electronics", "Laptop", 1, some 5, some (-5), some "completed"⟩

/-- A later row with the same order_id as `rowNegDup` but a positive amount. -/
def rowPosDup : Record :=
  ⟨"ORD1", "CUST1", some 202401, "Electronics", "Laptop", 1, some 10, some 10, some "completed"⟩

/-- `removed_count` printed at step 3 of `clean_data`: rows dropped by
the positivity filters. -/
def removedInvalidCount (df : List Record) : Nat :=
  (coerceTypes (fillStatusPending df)).length
    - (removeInvalid (coerceTypes (fillStatusPending df))).length

/-- `removed_duplicates` printed at step 4 of `clean_data`: rows dropped
by the order_id deduplication. -/
def removedDuplicatesCount (df : List Record) : Nat :=
  (removeInvalid (coerceTypes (fillStatusPending df))).length - (clean_data df).length

/-- A positive row, order_id "ORD2". -/
def rowPosFirst : Record :=
  ⟨"ORD2", "CUST2", some 202402, "Books", "Novel", 2, some 7, some 14, some "completed"⟩

/-- A later row that both duplicates `rowPosFirst`'s order_id and has a
non-positive amount. -/
def rowNegSecond : Record :=
  ⟨"ORD2", "CUST2", some 202402, "Books", "Novel", 1, some 7, some (-5), some "completed"⟩

/-- C4: `clean_data` is exactly the composition fill-status, coerce,
drop-non-positive, drop-duplicate-order_id (in that order), and the
order is observable: (a) when the first of two same-order_id rows has a
non-positive amount, the positivity step removes it before
deduplication, so the later positive row survives (a dedup-first
pipeline would output nothing); (b) a row that both duplicates an
earlier order_id and has a non-positive amount is removed by — and
counted against — the positivity step, not the deduplication step. -/
theorem clean_data_step_order :
    (∀ df : List Record, clean_data df
        = dropDuplicatesByOrderId (removeInvalid (coerceTypes (fillStatusPending df)))) ∧
    clean_data [rowNegDup, rowPosDup] = [rowPosDup] ∧
    clean_data [rowPosFirst, rowNegSecond] = [rowPosFirst] ∧
    removedInvalidCount [rowPosFirst, rowNegSecond] = 1 ∧
    removedDuplicatesCount [rowPosFirst, rowNegSecond] = 0 :=
  ⟨fun _ => rfl, by decide, by decide, by decide, by decide⟩

/-- C6: `clean_data` is idempotent: re-cleaning an already-clean table
changes nothing. -/
theorem clean_data_idempotent (df : List Record) :
    clean_data (clean_data df) = clean_data df := by
  have hfill : fillStatusPending (clean_data df) = clean_data df :=
    fillStatusPending_eq_self fun r hr => status_isSome_of_mem_fill (mem_clean_data hr).1
  have hrem : removeInvalid (clean_data df) = clean_data df :=
    removeInvalid_eq_self (fun r hr => (mem_clean_data hr).2.1)
      (fun r hr => (mem_clean_data hr).2.2)
  have hdrop : dropDuplicatesByOrderId (clean_data df) = clean_data df :=
    dedupByKey_eq_self _ _ (pairwise_dedupByKey Record.order_id _)
  show dropDuplicatesByOrderId (removeInvalid (coerceTypes (fillStatusPending (clean_data df))))
      = clean_data df
  rw [hfill]
  show dropDuplicatesByOrderId (removeInvalid (clean_data df)) = clean_data df
  rw [hrem, hdrop]

/-! ## The Metrics Engine: `calculate_metrics` and friends -/

/-- `self.clean_df[self.clean_df['status'] == 'completed']`. -/
def completedOrders (df : List Record) : List Record :=
  df.filter fun r => r.status == some "completed"

/-- `completed_orders['order_amount'].sum()` (pandas `sum` skips null). -/
def total_revenue (df : List Record) : Rat :=
  ((completedOrders df).filterMap Record.order_amount).sum

/-- `len(completed_orders)`. -/
def total_orders (df : List Record) : Nat := (completedOrders df).length

/-- `self.clean_df['customer_id'].nunique()`. -/
def customer_count (df : List Record) : Nat :=
  (dedupKeepFirst (df.map Record.customer_id)).length

/-- `completed_orders['order_amount'].mean()`: pandas skips nulls and
yields NaN (here `none`) when there is no non-null value. -/
def avg_order_value (df : List Record) : Option Rat :=
  let vals := (completedOrders df).filterMap Record.order_amount
  if vals.length = 0 then none else some (vals.sum / (vals.length : Rat))

/-- `self.clean_df['customer_id'].value_counts()`: the per-customer row
counts.  (`value_counts` returns them sorted descending, but
`_calculate_repeat_rate` only takes lengths of this series, so the order
is not modelled.) -/
def customerOrderCounts (df : List Record) : List Nat :=
  (dedupKeepFirst (df.map Record.customer_id)).map
    fun c => (df.filter fun r => r.customer_id == c).length

/-- `SalesAnalyzer._calculate_repeat_rate` (src/analyzer.py lines 112-117). -/
def calculate_repeat_rate (df : List Record) : Rat :=
  let order_counts := customerOrderCounts df
  let repeat_customers := (order_counts.filter fun n => decide (1 < n)).length
  let total_customers := order_counts.length
  if 0 < total_customers then
    ((repeat_customers : Rat) / (total_customers : Rat)) * 100
  else 0

/-- Python `/`: raises `ZeroDivisionError` (modelled as `none`) on a zero
denominator. -/
def pydiv (a b : Rat) : Option Rat := if b = 0 then none else some (a / b)

/-- `len(self.clean_df[self.clean_df['status'] == 'cancelled'])`. -/
def cancelledCount (df : List Record) : Nat :=
  (df.filter fun r => r.status == some "cancelled").length

/-- The metrics dictionary built by `calculate_metrics`. -/
structure Metrics where
  total_revenue : Rat
  total_orders : Nat
  customer_count : Nat
  avg_order_value : Option Rat
  repeat_customer_rate : Rat
  cancellation_rate : Rat
deriving DecidableEq, Repr

/-- `SalesAnalyzer.calculate_metrics` (src/analyzer.py lines 93-110).  The
whole call fails (`none`) iff the `cancellation_rate` entry divides by a
zero `len(self.clean_df)`. -/
def calculate_metrics (df : List Record) : Option Metrics :=
  (pydiv (cancelledCount df : Rat) (df.length : Rat)).map fun q =>
    { total_revenue := total_revenue df
      total_orders := total_orders df
      customer_count := customer_count df
      avg_order_value := avg_order_value df
      repeat_customer_rate := calculate_repeat_rate df
      cancellation_rate := q * 100 }

/-- C2 (behaviour of the code at the input the claim describes): on the
empty clean table `calculate_metrics` raises — the `cancellation_rate`
expression divides by `len(self.clean_df) = 0` — and the
`avg_order_value` expression alone evaluates to NaN, not 0. -/
theorem calculate_metrics_empty_fails :
    calculate_metrics ([] : List Record) = none ∧
    avg_order_value ([] : List Record) = none :=
  ⟨rfl, rfl⟩

/-- The repeat-customer rate exactly as the spec words it: customers with
more than one order in the clean table over distinct customers in the
clean table, times 100, and 0 when there are no customers. -/
def specRepeatRate (df : List Record) : Rat :=
  let customers := dedupKeepFirst (df.map Record.customer_id)
  let rep := (customers.filter fun c =>
    decide (1 < (df.filter fun r => r.customer_id == c).length)).length
  if customers.length = 0 then 0 else ((rep : Rat) / (customers.length : Rat)) * 100

/-- Four rows, two customers: CUST-A has three orders, CUST-B one. -/
def repeatDemoTable : List Record :=
  [⟨"O1", "CUST-A", some 202401, "Books", "B1", 1, some 5, some 5, some "completed"⟩,
   ⟨"O2", "CUST-A", some 202401, "Books", "B2", 1, some 5, some 5, some "completed"⟩,
   ⟨"O3", "CUST-A", some 202402, "Books", "B3", 1, some 5, some 5, some "pending"⟩,
   ⟨"O4", "CUST-B", some 202402, "Books", "B4", 1, some 5, some 5, some "completed"⟩]

/-- C8: `_calculate_repeat_rate` equals the spec's formula — customers
with more than one order (any status) over distinct customers, times
100, 0 when there are no customers — and on a table with one customer
holding 3 orders and another holding 1 it returns 50. -/
theorem repeat_rate_formula :
    (∀ df : List Record, calculate_repeat_rate df = specRepeatRate df) ∧
    calculate_repeat_rate repeatDemoTable = 50 := by
  constructor
  · intro df
    unfold calculate_repeat_rate specRepeatRate customerOrderCounts
    set customers := dedupKeepFirst (df.map Record.customer_id) with hc
    have hlen : ((customers.map fun c =>
        (df.filter fun r => r.customer_id == c).length).filter
          fun n => decide (1 < n)).length
        = (customers.filter fun c =>
            decide (1 < (df.filter fun r => r.customer_id == c).length)).length := by
      rw [← List.countP_eq_length_filter, ← List.countP_eq_length_filter, List.countP_map]
      rfl
    simp only [List.length_map]
    rw [hlen]
    rcases Nat.eq_zero_or_pos customers.length with h0 | hpos
    · rw [h0]; simp
    · rw [if_pos hpos, if_neg (Nat.pos_iff_ne_zero.mp hpos)]
  · have h1 : ((customerOrderCounts repeatDemoTable).filter
        fun n => decide (1 < n)).length = 1 := by decide
    have h2 : (customerOrderCounts repeatDemoTable).length = 2 := by decide
    show (if 0 < (customerOrderCounts repeatDemoTable).length then
        ((((customerOrderCounts repeatDemoTable).filter
            fun n => decide (1 < n)).length : Rat)
          / ((customerOrderCounts repeatDemoTable).length : Rat)) * 100
      else 0) = 50
    rw [h1, h2]
    norm_num

/-! ## Sorting: pandas `groupby(sort=True)` key order and `sort_values`

`groupby` (with its default `sort=True`) returns one group per distinct
key with the keys sorted ascending; `sort_values(ascending=False)` then
orders the group sums by value.  The value sort is modelled as a stable
sort (equal elements keep their incoming order). -/

/-- Code-point lexicographic comparison of character lists — the order
Python (and hence pandas) uses on strings. -/
def charListLe : List Char → List Char → Bool
  | [], _ => true
  | _ :: _, [] => false
  | a :: as, b :: bs =>
    if a.toNat < b.toNat then true
    else if b.toNat < a.toNat then false
    else charListLe as bs

/-- Python string `<=`. -/
def strLe (s t : String) : Bool := charListLe s.data t.data

theorem charListLe_total : ∀ as bs : List Char,
    charListLe as bs = false → charListLe bs as = true
  | [], _, h => by simp [charListLe] at h
  | _ :: _, [], _ => rfl
  | a :: as, b :: bs, h => by
    unfold charListLe at h ⊢
    by_cases h1 : a.toNat < b.toNat
    · rw [if_pos h1] at h; exact absurd h (by simp)
    · by_cases h2 : b.toNat < a.toNat
      · rw [if_pos h2]
      · rw [if_neg h2, if_neg h1]
        rw [if_neg h1, if_neg h2] at h
        exact charListLe_total as bs h

theorem charListLe_trans : ∀ as bs cs : List Char,
    charListLe as bs = true → charListLe bs cs = true → charListLe as cs = true
  | [], _, _, _, _ => rfl
  | _ :: _, [], _, h, _ => by simp [charListLe] at h
  | _ :: _, _ :: _, [], _, h => by simp [charListLe] at h
  | a :: as, b :: bs, c :: cs, h1, h2 => by
    unfold charListLe at h1 h2 ⊢
    by_cases hab : a.toNat < b.toNat
    · by_cases hbc : b.toNat < c.toNat
      · rw [if_pos (by omega)]
      · rw [if_neg hbc] at h2
        by_cases hcb : c.toNat < b.toNat
        · rw [if_pos hcb] at h2; exact absurd h2 (by simp)
        · rw [if_pos (by omega)]
    · rw [if_neg hab] at h1
      by_cases hba : b.toNat < a.toNat
      · rw [if_pos hba] at h1; exact absurd h1 (by simp)
      · rw [if_neg hba] at h1
        by_cases hbc : b.toNat < c.toNat
        · rw [if_pos (by omega)]
        · rw [if_neg hbc] at h2
          by_cases hcb : c.toNat < b.toNat
          · rw [if_pos hcb] at h2; exact absurd h2 (by simp)
          · rw [if_neg hcb] at h2
            rw [if_neg (by omega), if_neg (by omega)]
            exact charListLe_trans as bs cs h1 h2

theorem charListLe_antisymm : ∀ as bs : List Char,
    charListLe as bs = true → charListLe bs as = true → as = bs
  | [], [], _, _ => rfl
  | [], _ :: _, _, h => by simp [charListLe] at h
  | _ :: _, [], h, _ => by simp [charListLe] at h
  | a :: as, b :: bs, h1, h2 => by
    unfold charListLe at h1 h2
    by_cases hab : a.toNat < b.toNat
    · rw [if_neg (by omega), if_pos (by omega)] at h2
      exact absurd h2 (by simp)
    · rw [if_neg hab] at h1
      by_cases hba : b.toNat < a.toNat
      · rw [if_pos hba] at h1; exact absurd h1 (by simp)
      · rw [if_neg hba] at h1
        rw [if_neg (by omega), if_neg (by omega)] at h2
        have hchar : a = b := by
          have hn : a.toNat = b.toNat := by omega
          have : Char.ofNat a.toNat = Char.ofNat b.toNat := by rw [hn]
          simpa [Char.ofNat_toNat] using this
        rw [hchar, charListLe_antisymm as bs h1 h2]

theorem strLe_total (s t : String) (h : strLe s t = false) : strLe t s = true :=
  charListLe_total _ _ h

theorem strLe_trans {s t u : String} (h1 : strLe s t = true) (h2 : strLe t u = true) :
    strLe s u = true :=
  charListLe_trans _ _ _ h1 h2

theorem strLe_antisymm {s t : String} (h1 : strLe s t = true) (h2 : strLe t s = true) :
    s = t := by
  cases s; cases t
  exact congrArg String.mk (charListLe_antisymm _ _ h1 h2)

/-- Stable insertion into a sorted list: `x` lands in front of the first
element `y` with `le x y` (so with a comparator that accepts ties, an
element inserted later but earlier in the input stays in front). -/
def insertBy {α : Type} (le : α → α → Bool) (x : α) : List α → List α
  | [] => [x]
  | y :: ys => if le x y then x :: y :: ys else y :: insertBy le x ys

/-- Stable insertion sort (the deterministic model of
`Series.sort_values`). -/
def sortBy {α : Type} (le : α → α → Bool) : List α → List α
  | [] => []
  | x :: xs => insertBy le x (sortBy le xs)

theorem insertBy_perm {α : Type} (le : α → α → Bool) (x : α) :
    ∀ l : List α, (insertBy le x l).Perm (x :: l)
  | [] => List.Perm.refl _
  | y :: ys => by
    unfold insertBy
    split
    · exact List.Perm.refl _
    · exact ((insertBy_perm le x ys).cons y).trans (List.Perm.swap x y ys)

theorem sortBy_perm {α : Type} (le : α → α → Bool) :
    ∀ l : List α, (sortBy le l).Perm l
  | [] => List.Perm.refl _
  | x :: xs => (insertBy_perm le x _).trans ((sortBy_perm le xs).cons x)

theorem mem_insertBy {α : Type} {le : α → α → Bool} {x a : α} {l : List α} :
    a ∈ insertBy le x l ↔ a = x ∨ a ∈ l := by
  rw [(insertBy_perm le x l).mem_iff, List.mem_cons]

theorem mem_sortBy {α : Type} {le : α → α → Bool} {a : α} {l : List α} :
    a ∈ sortBy le l ↔ a ∈ l :=
  (sortBy_perm le l).mem_iff

theorem length_sortBy {α : Type} (le : α → α → Bool) (l : List α) :
    (sortBy le l).length = l.length :=
  (sortBy_perm le l).length_eq

theorem pairwise_insertBy {α : Type} {le : α → α → Bool}
    (htot : ∀ a b, le a b = false → le b a = true)
    (htrans : ∀ a b c, le a b = true → le b c = true → le a c = true) (x : α) :
    ∀ {l : List α}, l.Pairwise (fun a b => le a b = true) →
      (insertBy le x l).Pairwise (fun a b => le a b = true)
  | [], _ => List.pairwise_singleton _ x
  | y :: ys, h => by
    rcases List.pairwise_cons.mp h with ⟨hy, hys⟩
    unfold insertBy
    split
    · next hxy =>
      refine List.pairwise_cons.mpr ⟨?_, h⟩
      intro b hb
      rcases List.mem_cons.mp hb with rfl | hb
      · exact hxy
      · exact htrans x y b hxy (hy b hb)
    · next hxy =>
      refine List.pairwise_cons.mpr ⟨?_, pairwise_insertBy htot htrans x hys⟩
      intro b hb
      rcases mem_insertBy.mp hb with rfl | hb
      · exact htot b y (by simpa using hxy)
      · exact hy b hb

theorem pairwise_sortBy {α : Type} {le : α → α → Bool}
    (htot : ∀ a b, le a b = false → le b a = true)
    (htrans : ∀ a b c, le a b = true → le b c = true → le a c = true) :
    ∀ l : List α, (sortBy le l).Pairwise (fun a b => le a b = true)
  | [] => List.Pairwise.nil
  | x :: xs => pairwise_insertBy htot htrans x (pairwise_sortBy htot htrans xs)

/-! ## Grouped sums: `groupby(key)[col].sum()` -/

/-- Sum of the values attached to key `k`. -/
def groupSum {κ : Type} [DecidableEq κ] (pairs : List (κ × Rat)) (k : κ) : Rat :=
  ((pairs.filter fun p => decide (p.1 = k)).map Prod.snd).sum

/-- pandas `groupby(key)[col].sum()` with the default `sort=True`: one
(key, sum) row per distinct key, keys sorted ascending by `le`. -/
def groupBySum {κ : Type} [DecidableEq κ] (le : κ → κ → Bool)
    (pairs : List (κ × Rat)) : List (κ × Rat) :=
  (sortBy le (dedupKeepFirst (pairs.map Prod.fst))).map fun k => (k, groupSum pairs k)

/-- `sort_values(ascending=False)` comparator on (key, revenue) rows. -/
def valueDesc {κ : Type} (a b : κ × Rat) : Bool := decide (b.2 ≤ a.2)

/-- The (product_category, order_amount) projection of the completed
rows (a null amount contributes 0 to its group sum, as pandas `sum`
skips nulls). -/
def categoryPairs (df : List Record) : List (String × Rat) :=
  (completedOrders df).map fun r => (r.product_category, r.order_amount.getD 0)

/-- `SalesAnalyzer.get_top_categories` (src/analyzer.py lines 119-124). -/
def get_top_categories (df : List Record) (n : Nat) : List (String × Rat) :=
  (sortBy valueDesc (groupBySum strLe (categoryPairs df))).take n

/-- The (customer_id, order_amount) projection of the completed rows. -/
def customerPairs (df : List Record) : List (String × Rat) :=
  (completedOrders df).map fun r => (r.customer_id, r.order_amount.getD 0)

/-- `SalesAnalyzer.get_top_customers` (src/analyzer.py lines 126-131). -/
def get_top_customers (df : List Record) (n : Nat) : List (String × Rat) :=
  (sortBy valueDesc (groupBySum strLe (customerPairs df))).take n

/-- Nat comparator for month keys. -/
def natLe (a b : Nat) : Bool := decide (a ≤ b)

/-- The (month, order_amount) projection of the completed rows;
`groupby('month')` drops rows whose coerced date is NaT (pandas
`dropna=True` on group keys). -/
def monthPairs (df : List Record) : List (Nat × Rat) :=
  (completedOrders df).filterMap fun r =>
    r.order_date.map fun d => (d, r.order_amount.getD 0)

/-- `SalesAnalyzer.analyze_seasonal_trends` (src/analyzer.py lines
133-138): monthly sums over completed rows, ascending month keys.  The
`month` column is added to the locally filtered copy only. -/
def analyze_seasonal_trends (df : List Record) : List (Nat × Rat) :=
  groupBySum natLe (monthPairs df)

/-! ## The Report Formatter: `answer_business_questions` -/

/-- The eight business answers, kept as their underlying values (the
source only wraps them in format strings; a NaN `avg_order_value`
formats as the string "nan" without failing, so it stays an
`Option Rat`). -/
structure Answers where
  totalRevenue : Rat
  avgOrderValue : Option Rat
  customerCount : Nat
  mostProfitableCategory : String
  topCustomers : List (String × Rat)
  repeatCustomerRate : Rat
  monthlyTrends : List (Nat × Rat)
  cancellationRate : Rat
deriving DecidableEq, Repr

/-- `SalesAnalyzer.answer_business_questions` (src/analyzer.py lines
140-155): computes the metrics first (which fails on an empty table),
then builds the eight answers; answer 4 evaluates
`get_top_categories(1).index[0]`, an IndexError (`none`) when no
completed record exists. -/
def answer_business_questions (df : List Record) : Option Answers := do
  let m ← calculate_metrics df
  let top ← (get_top_categories df 1).head?
  pure { totalRevenue := m.total_revenue
         avgOrderValue := m.avg_order_value
         customerCount := m.customer_count
         mostProfitableCategory := top.1
         topCustomers := get_top_customers df 10
         repeatCustomerRate := m.repeat_customer_rate
         monthlyTrends := analyze_seasonal_trends df
         cancellationRate := m.cancellation_rate }

/-! ## The analyzer object: `self.raw_df` / `self.clean_df` -/

/-- The mutable fields of a `SalesAnalyzer` instance (the path and the
entity factory are never consulted by the operations under study). -/
structure AnalyzerState where
  raw_df : Option (List Record)
  clean_df : Option (List Record)
deriving DecidableEq, Repr

/-- `clean_data` as a method: cleans `raw_df` and stores the result in
`self.clean_df`.  (When `raw_df` is `None` the source would first load
the CSV from disk; file input is outside this embedding, so that branch
is modelled as an unavailable result that leaves the state unchanged.) -/
def cleanDataOp (s : AnalyzerState) : Option (List Record) × AnalyzerState :=
  match s.raw_df with
  | some raw => (some (clean_data raw), { s with clean_df := some (clean_data raw) })
  | none => (none, s)

/-- `calculate_metrics` as a method: lazily cleans when `clean_df is
None`, otherwise reads the stored clean table. -/
def calculateMetricsOp (s : AnalyzerState) : Option Metrics × AnalyzerState :=
  match s.clean_df with
  | some df => (calculate_metrics df, s)
  | none =>
    match cleanDataOp s with
    | (some df, s') => (calculate_metrics df, s')
    | (none, s') => (none, s')

/-- `get_top_categories` as a method: reads `self.clean_df` directly
(`None` would raise, modelled as a `none` result). -/
def getTopCategoriesOp (s : AnalyzerState) (n : Nat) :
    Option (List (String × Rat)) × AnalyzerState :=
  (s.clean_df.map fun df => get_top_categories df n, s)

/-- `get_top_customers` as a method. -/
def getTopCustomersOp (s : AnalyzerState) (n : Nat) :
    Option (List (String × Rat)) × AnalyzerState :=
  (s.clean_df.map fun df => get_top_customers df n, s)

/-- `analyze_seasonal_trends` as a method: the `month` column is added
to the locally filtered copy `completed`, never to `self.clean_df`. -/
def analyzeSeasonalTrendsOp (s : AnalyzerState) :
    Option (List (Nat × Rat)) × AnalyzerState :=
  (s.clean_df.map analyze_seasonal_trends, s)

/-- `answer_business_questions` as a method: runs `calculate_metrics`
(which may lazily clean) and then the read-only groupings on the stored
clean table. -/
def answerBusinessQuestionsOp (s : AnalyzerState) : Option Answers × AnalyzerState :=
  match calculateMetricsOp s with
  | (some _, s') =>
    match s'.clean_df with
    | some df => (answer_business_questions df, s')
    | none => (none, s')
  | (none, s') => (none, s')

/-! ## Rate bounds and definedness -/

/-- `calculate_metrics` on a nonempty table: the one division by
`len(self.clean_df)` succeeds and the dictionary is returned. -/
theorem calculate_metrics_eq_some (df : List Record) (h : df ≠ []) :
    calculate_metrics df = some
      { total_revenue := total_revenue df
        total_orders := total_orders df
        customer_count := customer_count df
        avg_order_value := avg_order_value df
        repeat_customer_rate := calculate_repeat_rate df
        cancellation_rate := ((cancelledCount df : Rat) / (df.length : Rat)) * 100 } := by
  have hpos : 0 < df.length := List.length_pos.mpr h
  have hne : ((df.length : Nat) : Rat) ≠ 0 := by
    exact_mod_cast Nat.pos_iff_ne_zero.mp hpos
  unfold calculate_metrics pydiv
  rw [if_neg hne]
  rfl

/-- `0 ≤ (a/b)*100 ≤ 100` for a count ratio `a ≤ b`, `b > 0`. -/
theorem ratio_bounds {a b : Nat} (hab : a ≤ b) (hb : 0 < b) :
    0 ≤ ((a : Rat) / (b : Rat)) * 100 ∧ ((a : Rat) / (b : Rat)) * 100 ≤ 100 := by
  have hb' : (0 : Rat) < (b : Rat) := by exact_mod_cast hb
  have h1 : (a : Rat) / (b : Rat) ≤ 1 := (div_le_one hb').mpr (by exact_mod_cast hab)
  have h0 : (0 : Rat) ≤ (a : Rat) / (b : Rat) := by positivity
  exact ⟨by positivity, by nlinarith⟩

theorem repeat_rate_bounds (df : List Record) :
    0 ≤ calculate_repeat_rate df ∧ calculate_repeat_rate df ≤ 100 := by
  show (0 ≤ if 0 < (customerOrderCounts df).length then
        ((((customerOrderCounts df).filter fun n => decide (1 < n)).length : Rat)
          / ((customerOrderCounts df).length : Rat)) * 100 else 0) ∧
    (if 0 < (customerOrderCounts df).length then
        ((((customerOrderCounts df).filter fun n => decide (1 < n)).length : Rat)
          / ((customerOrderCounts df).length : Rat)) * 100 else 0) ≤ 100
  rcases Nat.eq_zero_or_pos (customerOrderCounts df).length with h0 | hpos
  · rw [h0]
    norm_num
  · rw [if_pos hpos]
    exact ratio_bounds (List.length_filter_le _ _) hpos

/-- C7 (the definedness part of the claim fails on the empty table, see
`calculate_metrics` at `[]`; this is the bound statement on every
nonempty clean table): both rates are defined and lie in [0, 100]. -/
theorem rates_within_bounds (df : List Record) (h : df ≠ []) :
    ∃ m, calculate_metrics df = some m ∧
      0 ≤ m.repeat_customer_rate ∧ m.repeat_customer_rate ≤ 100 ∧
      0 ≤ m.cancellation_rate ∧ m.cancellation_rate ≤ 100 := by
  obtain ⟨hr0, hr100⟩ := repeat_rate_bounds df
  obtain ⟨hc0, hc100⟩ :=
    ratio_bounds (List.length_filter_le _ df) (List.length_pos.mpr h)
  exact ⟨_, calculate_metrics_eq_some df h, hr0, hr100, hc0, hc100⟩

/-- Witness for `rates_within_bounds` at a concrete one-row table. -/
theorem rates_within_bounds_witness :
    ∃ m, calculate_metrics [rowPosDup] = some m ∧
      0 ≤ m.repeat_customer_rate ∧ m.repeat_customer_rate ≤ 100 ∧
      0 ≤ m.cancellation_rate ∧ m.cancellation_rate ≤ 100 :=
  rates_within_bounds [rowPosDup] (by decide)

/-! ## Frame property of the Metrics Engine -/

/-- C9: when a clean table is stored, no Metrics Engine operation
changes the analyzer state — in particular `clean_df` after each call is
what it was before (in `analyze_seasonal_trends` the month column only
ever lands on the private filtered copy). -/
theorem metrics_ops_preserve_state (s : AnalyzerState) (df : List Record) (n k : Nat)
    (h : s.clean_df = some df) :
    (calculateMetricsOp s).2 = s ∧
    (getTopCategoriesOp s n).2 = s ∧
    (getTopCustomersOp s k).2 = s ∧
    (analyzeSeasonalTrendsOp s).2 = s ∧
    (answerBusinessQuestionsOp s).2 = s := by
  have hm : calculateMetricsOp s = (calculate_metrics df, s) := by
    unfold calculateMetricsOp
    rw [h]
  refine ⟨by rw [hm], rfl, rfl, rfl, ?_⟩
  unfold answerBusinessQuestionsOp
  rw [hm]
  cases hcm : calculate_metrics df with
  | none => rfl
  | some m => simp only [h]

/-- A state holding a one-row clean table. -/
def demoState : AnalyzerState := ⟨none, some [rowPosDup]⟩

/-- Witness for `metrics_ops_preserve_state` at a concrete state. -/
theorem metrics_ops_preserve_state_witness :
    (calculateMetricsOp demoState).2 = demoState ∧
    (getTopCategoriesOp demoState 5).2 = demoState ∧
    (getTopCustomersOp demoState 10).2 = demoState ∧
    (analyzeSeasonalTrendsOp demoState).2 = demoState ∧
    (answerBusinessQuestionsOp demoState).2 = demoState :=
  metrics_ops_preserve_state demoState [rowPosDup] 5 10 rfl

/-! ## Definedness of the business answers -/

/-- C10: on a clean table with at least one completed record,
`answer_business_questions` returns all eight answers and the
"Most Profitable Category" lookup `get_top_categories(1).index[0]` is
defined. -/
theorem answers_defined_of_completed (df : List Record)
    (h : ∃ r ∈ df, r.status = some "completed") :
    (answer_business_questions df).isSome = true ∧ get_top_categories df 1 ≠ [] := by
  obtain ⟨r, hrmem, hrstat⟩ := h
  have hcomp : r ∈ completedOrders df :=
    List.mem_filter.mpr ⟨hrmem, by simp [hrstat]⟩
  have hdf : df ≠ [] := List.ne_nil_of_mem hrmem
  have hpair : (r.product_category, r.order_amount.getD 0) ∈ categoryPairs df :=
    List.mem_map.mpr ⟨r, hcomp, rfl⟩
  have hkey : r.product_category ∈ dedupKeepFirst ((categoryPairs df).map Prod.fst) :=
    mem_dedupKeepFirst.mpr (List.mem_map.mpr ⟨_, hpair, rfl⟩)
  have hpos : 0 < (sortBy valueDesc (groupBySum strLe (categoryPairs df))).length := by
    rw [length_sortBy]
    unfold groupBySum
    rw [List.length_map, length_sortBy]
    exact List.length_pos.mpr (List.ne_nil_of_mem hkey)
  have htop : get_top_categories df 1 ≠ [] := by
    unfold get_top_categories
    intro hc
    rcases List.take_eq_nil_iff.mp hc with h1 | h1
    · exact one_ne_zero h1
    · rw [h1] at hpos
      simp at hpos
  refine ⟨?_, htop⟩
  cases htc : get_top_categories df 1 with
  | nil => exact absurd htc htop
  | cons a l =>
    simp [answer_business_questions, calculate_metrics_eq_some df hdf, htc]

/-- Witness for `answers_defined_of_completed` on a concrete table. -/
theorem answers_defined_of_completed_witness :
    (answer_business_questions repeatDemoTable).isSome = true ∧
    get_top_categories repeatDemoTable 1 ≠ [] :=
  answers_defined_of_completed repeatDemoTable
    ⟨_, List.mem_cons_self _ _, rfl⟩

/-! ## Revenue consistency: the group sums add up to total_revenue -/

theorem sum_map_filter_split {α : Type} (f : α → Rat) (p : α → Bool) :
    ∀ l : List α, (l.map f).sum
      = ((l.filter p).map f).sum + ((l.filter fun a => !p a).map f).sum
  | [] => by simp
  | x :: xs => by
    cases hpx : p x <;>
      simp [List.filter_cons, hpx, sum_map_filter_split f p xs] <;> ring

theorem groupSum_filter_ne {κ : Type} [DecidableEq κ] (pairs : List (κ × Rat)) (k k' : κ)
    (hkk : k' ≠ k) :
    groupSum (pairs.filter fun p => !decide (p.1 = k)) k' = groupSum pairs k' := by
  unfold groupSum
  rw [List.filter_filter]
  congr 2
  apply List.filter_congr
  intro p _
  by_cases hp : p.1 = k'
  · simp [hp, hkk]
  · simp [hp]

/-- Summing the per-key group sums over a duplicate-free covering key
list gives the total sum of the values. -/
theorem sum_groupSums {κ : Type} [DecidableEq κ] :
    ∀ (ks : List κ) (pairs : List (κ × Rat)),
      ks.Pairwise (fun a b => a ≠ b) →
      (∀ p ∈ pairs, p.1 ∈ ks) →
      (ks.map (groupSum pairs)).sum = (pairs.map Prod.snd).sum
  | [], pairs, _, hcov => by
    cases pairs with
    | nil => rfl
    | cons p ps => exact absurd (hcov p (List.mem_cons_self _ _)) (List.not_mem_nil _)
  | k :: ks, pairs, hnd, hcov => by
    rcases List.pairwise_cons.mp hnd with ⟨hk, hks⟩
    have hsplit := sum_map_filter_split Prod.snd (fun p => decide (p.1 = k)) pairs
    have hcov' : ∀ p ∈ pairs.filter fun p => !decide (p.1 = k), p.1 ∈ ks := by
      intro p hp
      have hmem := List.mem_filter.mp hp
      rcases List.mem_cons.mp (hcov p hmem.1) with h | h
      · exact absurd (decide_eq_true h) (by simpa using hmem.2)
      · exact h
    have hrec : ((pairs.filter fun p => !decide (p.1 = k)).map Prod.snd).sum
        = (ks.map (groupSum pairs)).sum := by
      rw [← sum_groupSums ks (pairs.filter fun p => !decide (p.1 = k)) hks hcov']
      apply congrArg
      apply List.map_congr_left
      intro k' hk'
      exact groupSum_filter_ne pairs k k' (Ne.symm (hk k' hk'))
    simp only [List.map_cons, List.sum_cons]
    rw [hsplit, ← hrec]
    rfl

theorem sum_amounts_eq (l : List Record) :
    (l.filterMap Record.order_amount).sum = (l.map fun r => r.order_amount.getD 0).sum := by
  induction l with
  | nil => rfl
  | cons x xs ih =>
    cases hx : x.order_amount with
    | none => simp [List.filterMap_cons, hx, ih]
    | some a => simp [List.filterMap_cons, hx, ih]

theorem total_revenue_eq_group_total (df : List Record) :
    total_revenue df = ((groupBySum strLe (categoryPairs df)).map Prod.snd).sum := by
  have hnd : (dedupKeepFirst ((categoryPairs df).map Prod.fst)).Pairwise
      (fun a b => a ≠ b) := pairwise_dedupByKey id _
  have hcov : ∀ p ∈ categoryPairs df,
      p.1 ∈ dedupKeepFirst ((categoryPairs df).map Prod.fst) :=
    fun p hp => mem_dedupKeepFirst.mpr (List.mem_map.mpr ⟨p, hp, rfl⟩)
  have hgroups := sum_groupSums (dedupKeepFirst ((categoryPairs df).map Prod.fst))
    (categoryPairs df) hnd hcov
  calc total_revenue df
      = ((completedOrders df).map fun r => r.order_amount.getD 0).sum :=
        sum_amounts_eq _
    _ = ((categoryPairs df).map Prod.snd).sum := by
        unfold categoryPairs
        rw [List.map_map]
        rfl
    _ = ((dedupKeepFirst ((categoryPairs df).map Prod.fst)).map
          (groupSum (categoryPairs df))).sum := hgroups.symm
    _ = ((sortBy strLe (dedupKeepFirst ((categoryPairs df).map Prod.fst))).map
          (groupSum (categoryPairs df))).sum :=
        (((sortBy_perm strLe _).map _).sum_eq).symm
    _ = ((groupBySum strLe (categoryPairs df)).map Prod.snd).sum := by
        unfold groupBySum
        rw [List.map_map]
        rfl

/-- C3: total_revenue equals the sum of the values returned by
`get_top_categories` whenever `n` is at least the number of distinct
categories among the completed records. -/
theorem revenue_consistency (df : List Record) (n : Nat)
    (h : (dedupKeepFirst ((categoryPairs df).map Prod.fst)).length ≤ n) :
    total_revenue df = ((get_top_categories df n).map Prod.snd).sum := by
  unfold get_top_categories
  have hlen : (sortBy valueDesc (groupBySum strLe (categoryPairs df))).length ≤ n := by
    rw [length_sortBy]
    unfold groupBySum
    rw [List.length_map, length_sortBy]
    exact h
  rw [List.take_of_length_le hlen, total_revenue_eq_group_total]
  exact (((sortBy_perm valueDesc _).map Prod.snd).sum_eq).symm

/-- Witness for `revenue_consistency`: a four-row table with one
category, n = 5. -/
theorem revenue_consistency_witness :
    total_revenue repeatDemoTable
      = ((get_top_categories repeatDemoTable 5).map Prod.snd).sum :=
  revenue_consistency repeatDemoTable 5 (by decide)

/-! ## Tie-breaking in top_categories / top_customers -/

/-- Group sums in first-encountered-key order (the grouping as the
frozen claim reads it, with no key sort). -/
def groupByFirstEncounter (pairs : List (String × Rat)) : List (String × Rat) :=
  (dedupKeepFirst (pairs.map Prod.fst)).map fun k => (k, groupSum pairs k)

/-- The claim's reading of the top-n functions: group sums in
first-encounter order, stable-sorted descending by revenue, truncated to
n — revenue ties would come out in first-encounter order. -/
def specTopFirstEncounter (pairs : List (String × Rat)) (n : Nat) : List (String × Rat) :=
  (sortBy valueDesc (groupByFirstEncounter pairs)).take n

/-- Revenue descending, ties by ascending key — the order the code
actually produces, because `groupby(sort=True)` pre-sorts the keys and
the stable value sort keeps that order within ties. -/
def revKeyLe (a b : String × Rat) : Bool :=
  decide (b.2 < a.2) || (decide (a.2 = b.2) && strLe a.1 b.1)

/-- The amended reading of the top-n functions: group sums sorted by
revenue descending with ties by ascending key, truncated to n. -/
def specTopRevKey (pairs : List (String × Rat)) (n : Nat) : List (String × Rat) :=
  (sortBy revKeyLe (groupByFirstEncounter pairs)).take n

/-- `revKeyLe` as a Prop. -/
def lexGe (a b : String × Rat) : Prop :=
  b.2 < a.2 ∨ (a.2 = b.2 ∧ strLe a.1 b.1 = true)

theorem revKeyLe_iff {a b : String × Rat} : revKeyLe a b = true ↔ lexGe a b := by
  unfold revKeyLe lexGe
  simp [Bool.or_eq_true, Bool.and_eq_true, decide_eq_true_eq]

instance : IsAntisymm (String × Rat) lexGe := by
  refine ⟨fun a b hab hba => ?_⟩
  rcases hab with h1 | ⟨h1, h1s⟩ <;> rcases hba with h2 | ⟨h2, h2s⟩
  · exact absurd (h1.trans h2) (lt_irrefl _)
  · exact absurd h1 (h2 ▸ lt_irrefl _)
  · exact absurd h2 (h1 ▸ lt_irrefl _)
  · exact Prod.ext (strLe_antisymm h1s h2s) h1

theorem lexGe_total (a b : String × Rat) (h : ¬ lexGe a b) : lexGe b a := by
  rcases lt_trichotomy a.2 b.2 with hlt | heq | hgt
  · exact Or.inl hlt
  · refine Or.inr ⟨heq.symm, ?_⟩
    rcases hs : strLe a.1 b.1 with _ | _
    · exact strLe_total _ _ hs
    · exact absurd (Or.inr ⟨heq, hs⟩) h
  · exact absurd (Or.inl hgt) h

theorem lexGe_trans {a b c : String × Rat} (h1 : lexGe a b) (h2 : lexGe b c) :
    lexGe a c := by
  rcases h1 with h1 | ⟨h1, h1s⟩ <;> rcases h2 with h2 | ⟨h2, h2s⟩
  · exact Or.inl (h2.trans h1)
  · exact Or.inl (h2 ▸ h1)
  · exact Or.inl (h1 ▸ h2)
  · exact Or.inr ⟨h1.trans h2, strLe_trans h1s h2s⟩

theorem revKeyLe_total (a b : String × Rat) (h : revKeyLe a b = false) :
    revKeyLe b a = true :=
  revKeyLe_iff.mpr (lexGe_total a b fun hl => by
    rw [revKeyLe_iff.mpr hl] at h
    simp at h)

theorem revKeyLe_trans (a b c : String × Rat) (h1 : revKeyLe a b = true)
    (h2 : revKeyLe b c = true) : revKeyLe a c = true :=
  revKeyLe_iff.mpr (lexGe_trans (revKeyLe_iff.mp h1) (revKeyLe_iff.mp h2))

theorem pairwise_lexGe_sortBy_revKeyLe (l : List (String × Rat)) :
    (sortBy revKeyLe l).Pairwise lexGe :=
  (pairwise_sortBy revKeyLe_total revKeyLe_trans l).imp fun h => revKeyLe_iff.mp h

theorem lexGe_snd_le {a b : String × Rat} (h : lexGe a b) : b.2 ≤ a.2 := by
  rcases h with h | ⟨h, _⟩
  · exact le_of_lt h
  · exact le_of_eq h.symm

/-- Stability of the value-descending insertion: inserting an element
whose key `strLe`-precedes every key in a revenue-descending,
key-tie-ascending list keeps the list in that order. -/
theorem pairwise_lexGe_insertBy_valueDesc (x : String × Rat) :
    ∀ {l : List (String × Rat)}, l.Pairwise lexGe →
      (∀ y ∈ l, strLe x.1 y.1 = true) →
      (insertBy valueDesc x l).Pairwise lexGe
  | [], _, _ => List.pairwise_singleton _ _
  | y :: ys, hl, hx => by
    rcases List.pairwise_cons.mp hl with ⟨hy, hys⟩
    unfold insertBy
    split
    · next hxy =>
      have hyx : y.2 ≤ x.2 := of_decide_eq_true hxy
      refine List.pairwise_cons.mpr ⟨?_, hl⟩
      intro z hz
      have hz2 : z.2 ≤ x.2 := by
        rcases List.mem_cons.mp hz with rfl | hz'
        · exact hyx
        · exact le_trans (lexGe_snd_le (hy z hz')) hyx
      rcases lt_or_eq_of_le hz2 with hlt | heq
      · exact Or.inl hlt
      · exact Or.inr ⟨heq.symm, hx z hz⟩
    · next hxy =>
      have hxy' : x.2 < y.2 := not_le.mp fun hle => hxy (decide_eq_true hle)
      refine List.pairwise_cons.mpr
        ⟨?_, pairwise_lexGe_insertBy_valueDesc x hys
          fun z hz => hx z (List.mem_cons_of_mem _ hz)⟩
      intro z hz
      rcases mem_insertBy.mp hz with rfl | hz'
      · exact Or.inl hxy'
      · exact hy z hz'

/-- The stable value-descending sort of a key-ascending list is sorted
by revenue descending with ties in ascending key order. -/
theorem pairwise_lexGe_sortBy_valueDesc :
    ∀ {l : List (String × Rat)},
      l.Pairwise (fun a b => strLe a.1 b.1 = true) →
      (sortBy valueDesc l).Pairwise lexGe
  | [], _ => List.Pairwise.nil
  | x :: xs, h => by
    rcases List.pairwise_cons.mp h with ⟨hx, hxs⟩
    exact pairwise_lexGe_insertBy_valueDesc x
      (pairwise_lexGe_sortBy_valueDesc hxs)
      fun z hz => hx z (mem_sortBy.mp hz)

/-- The code's sort (stable value-descending over key-pre-sorted groups)
coincides with one lexicographic sort: revenue descending, key-ascending
ties. -/
theorem sortDesc_group_eq (pairs : List (String × Rat)) :
    sortBy valueDesc (groupBySum strLe pairs)
      = sortBy revKeyLe (groupByFirstEncounter pairs) := by
  have hperm : (sortBy valueDesc (groupBySum strLe pairs)).Perm
      (sortBy revKeyLe (groupByFirstEncounter pairs)) := by
    have h1 : (groupBySum strLe pairs).Perm (groupByFirstEncounter pairs) := by
      unfold groupBySum groupByFirstEncounter
      exact (sortBy_perm strLe _).map _
    exact ((sortBy_perm valueDesc _).trans h1).trans (sortBy_perm revKeyLe _).symm
  have hs1 : (sortBy valueDesc (groupBySum strLe pairs)).Pairwise lexGe := by
    apply pairwise_lexGe_sortBy_valueDesc
    unfold groupBySum
    rw [List.pairwise_map]
    exact pairwise_sortBy strLe_total (fun a b c h1 h2 => strLe_trans h1 h2) _
  have hs2 : (sortBy revKeyLe (groupByFirstEncounter pairs)).Pairwise lexGe :=
    pairwise_lexGe_sortBy_revKeyLe _
  exact List.eq_of_perm_of_sorted hperm hs1 hs2

/-- C5 amended: `get_top_categories(n)` / `get_top_customers(n)` return
the per-group completed-revenue sums sorted descending by revenue and
truncated to n, with revenue ties broken by **ascending group key**
(not by first-encounter order). -/
theorem top_functions_revenue_sorted (df : List Record) (n : Nat) :
    get_top_categories df n = specTopRevKey (categoryPairs df) n ∧
    get_top_customers df n = specTopRevKey (customerPairs df) n := by
  constructor
  · unfold get_top_categories specTopRevKey
    rw [sortDesc_group_eq]
  · unfold get_top_customers specTopRevKey
    rw [sortDesc_group_eq]

/-- Two completed rows with equal revenue: category "Beta" encountered
first, "Alpha" second. -/
def tieTable : List Record :=
  [⟨"T1", "CU1", some 202401, "Beta", "P1", 1, some 10, some 10, some "completed"⟩,
   ⟨"T2", "CU2", some 202401, "Alpha", "P2", 1, some 10, some 10, some "completed"⟩]

/-- C5 counterexample: on `tieTable` the code returns the revenue-tied
categories in ascending key order ["Alpha", "Beta"], not in
first-encountered order ["Beta", "Alpha"] as the claim predicts. -/
theorem top_categories_tie_counterexample :
    get_top_categories tieTable 2 ≠ specTopFirstEncounter (categoryPairs tieTable) 2 ∧
    (get_top_categories tieTable 2).map Prod.fst = ["Alpha", "Beta"] ∧
    (specTopFirstEncounter (categoryPairs tieTable) 2).map Prod.fst = ["Beta", "Alpha"] := by
  with_unfolding_all decide

end SalesAnalyzer
